import Mathlib

/-!
Verification of the smart-backup subsystem (Scripts/smart-backup.py).

Shallow embedding conventions:
* relative filesystem paths are `List Char` (the characters of the path string);
  file contents are `List Nat` (byte sequences);
* SHA-256 digests are modeled by the exact byte stream fed to the hash: every
  property claimed about the code depends only on equality or inequality of
  digests of equal or unequal streams, never on the numeric value of SHA-256;
* gzip is modeled as a header-prefix codec: compression prepends the gzip magic
  bytes 31, 139 and decompression succeeds exactly on streams carrying that
  header (the properties used: decompress is a left inverse of compress, and
  decompression of non-gzip data raises);
* the SQLite database is an explicit `Index` value; each
  `with sqlite3.connect(...)` block of the source is one transaction, a total
  function `Index → Index`, committed atomically at block exit;
* ISO-8601 timestamps (compared as strings by the source, order-isomorphic to
  instants for the uniform format the script writes) are modeled as integer
  seconds; `timedelta(days=d)` is `d * 86400` seconds;
* float arithmetic in the compression-ratio computation is modeled with exact
  rationals, `round(x, 2)` as integer rounding of `100 * x`;
* a per-file exception inside the copy loop of `create_backup` is modeled by
  the `copy_ok` flag of the selected file: a failing file contributes nothing
  to the backup directory, the hash upserts, or the size counters.
-/

namespace SmartBackup

/-- Relative filesystem path, as the characters of the path string. -/
abbrev PathC := List Char

/-- File contents, as a byte sequence. -/
abbrev Bytes := List Nat

/-- Model of gzip compression (`gzip.open(..., 'wb')`, smart-backup.py:206):
prepends the gzip magic header bytes 31, 139. -/
def gzipCompress (b : Bytes) : Bytes := 31 :: 139 :: b

/-- Model of gzip decompression (`gzip.open(..., 'rb')`, smart-backup.py:445):
succeeds exactly on streams carrying the gzip magic header; `none` models the
exception gzip raises on data that is not gzip-compressed. -/
def gzipDecompress (b : Bytes) : Option Bytes :=
  match b with
  | 31 :: 139 :: rest => some rest
  | _ => none

/-- `SmartBackup.calculate_file_hash` (smart-backup.py:120-130): streams the
file content into SHA-256.  The digest is modeled by the hashed stream itself,
i.e. the content. -/
def calculate_file_hash (b : Bytes) : Bytes := b

/-- The final component of a path: the characters after the last '/'
(`PurePath.name`). -/
def lastComponent (p : PathC) : PathC :=
  (p.reverse.takeWhile (fun c => !(c = '/'))).reverse

/-- The leading directory part of a path, including the trailing '/', so that
`dirPart p ++ lastComponent p = p`. -/
def dirPart (p : PathC) : PathC :=
  (p.reverse.dropWhile (fun c => !(c = '/'))).reverse

/-- Index of the last '.' in a name (`str.rfind('.')` of CPython's
`PurePath.suffix`), or `none` when the name has no dot. -/
def lastDotIdx (name : PathC) : Option Nat :=
  match name.reverse.findIdx? (fun c => c = '.') with
  | none => none
  | some j => some (name.length - 1 - j)

/-- `PurePath.suffix`: the extension of the final component.  CPython: with
`i = name.rfind('.')`, the suffix is `name[i:]` if `0 < i < len(name) - 1`
and empty otherwise. -/
def pySuffix (p : PathC) : PathC :=
  match lastDotIdx (lastComponent p) with
  | none => []
  | some i =>
    if 0 < i ∧ i < (lastComponent p).length - 1 then (lastComponent p).drop i
    else []

/-- `PurePath.with_suffix('')` (smart-backup.py:446): strips the suffix from
the final component; a name with no suffix is left unchanged. -/
def withSuffixEmpty (p : PathC) : PathC :=
  dirPart p ++
    (if (pySuffix p).length = 0 then lastComponent p
     else (lastComponent p).take ((lastComponent p).length - (pySuffix p).length))

/-- A '*' in an fnmatch pattern consumes any number of characters: the rest of
the pattern (the continuation `f`) is tried against every suffix of the
text. -/
def fnmatchStar (f : List Char → Bool) : List Char → Bool
  | [] => f []
  | c :: ts => f (c :: ts) || fnmatchStar f ts

/-- `fnmatch` on a single path component: '*' matches any character sequence,
'?' any single character, every other pattern character itself (the subset of
fnmatch syntax exercised by the configured exclude patterns). -/
def fnmatchChars : List Char → List Char → Bool
  | [], [] => true
  | [], _ :: _ => false
  | '*' :: ps, t => fnmatchStar (fnmatchChars ps) t
  | '?' :: _, [] => false
  | '?' :: ps, _ :: ts => fnmatchChars ps ts
  | _ :: _, [] => false
  | p :: ps, c :: ts => decide (p = c) && fnmatchChars ps ts

/-- Path components: the path string split on '/' (`PurePath.parts`). -/
def splitComponents (p : PathC) : List PathC := p.splitOn '/'

/-- `PurePath.match` with a relative pattern: the pattern's components are
matched componentwise, by `fnmatch`, against the trailing components of the
path. -/
def pathMatchParts (pathParts : List PathC) (patParts : List PathC) : Bool :=
  decide (patParts.length ≤ pathParts.length) &&
  !patParts.isEmpty &&
  ((pathParts.drop (pathParts.length - patParts.length)).zip patParts).all
    (fun pr => fnmatchChars pr.2 pr.1)

/-- `SmartBackup.should_exclude` (smart-backup.py:111-118): a path is excluded
when some pattern glob-matches the absolute path (`file_path.match(pattern)`,
where the absolute path is the vault components followed by the relative
path's components) or when the pattern with all '*' removed occurs as a plain
substring of the relative path (`rel_path.find(pattern.replace('*', '')) != -1`;
`str.find` returns a non-negative index exactly on substring occurrence). -/
def should_exclude (vaultParts : List PathC) (patterns : List PathC)
    (rel_path : PathC) : Bool :=
  patterns.any (fun pat =>
    pathMatchParts (vaultParts ++ splitComponents rel_path) (splitComponents pat) ||
    decide ((pat.filter (fun c => !(c = '*'))) <:+: rel_path))

/-- The byte encoding of a relative path, as fed to the backup-wide hash
(`hash_sha256.update(str(rel_path).encode())`, smart-backup.py:280). -/
def pathBytes (p : PathC) : Bytes := p.map Char.toNat

instance entryLeDec : DecidableRel (fun a b : PathC × Bytes => a.1 ≤ b.1) :=
  fun a b => inferInstanceAs (Decidable (a.1 ≤ b.1))

instance entryLeTotal : IsTotal (PathC × Bytes) (fun a b => a.1 ≤ b.1) :=
  ⟨fun a b => le_total a.1 b.1⟩

instance entryLeTrans : IsTrans (PathC × Bytes) (fun a b => a.1 ≤ b.1) :=
  ⟨fun _ _ _ hab hbc => le_trans hab hbc⟩

instance entryRunLeDec : DecidableRel (fun a b : PathC × Option Bytes => a.1 ≤ b.1) :=
  fun a b => inferInstanceAs (Decidable (a.1 ≤ b.1))

/-- The sorted traversal order of a backup directory
(`sorted(backup_dir.rglob("*"))`, smart-backup.py:277): entries sorted by
path. -/
def sortEntries (d : List (PathC × Bytes)) : List (PathC × Bytes) :=
  List.insertionSort (fun a b => a.1 ≤ b.1) d

/-- `SmartBackup.calculate_backup_checksum` (smart-backup.py:273-286): the
digest of the sorted sequence of (relative path, file bytes) pairs, each pair
contributing the path's bytes followed by the file's bytes.  The digest is
modeled by the hashed stream. -/
def calculate_backup_checksum (d : List (PathC × Bytes)) : Bytes :=
  (sortEntries d).foldl (fun acc e => acc ++ pathBytes e.1 ++ e.2) []

/-- `SmartBackup.calculate_backup_checksum` executed against a directory whose
files may be unreadable (`open(file_path, "rb")` at smart-backup.py:282 has no
exception handler): an unreadable file (content `none`) makes the whole
computation raise, modeled by `none`. -/
def calculate_backup_checksum_run (d : List (PathC × Option Bytes)) : Option Bytes :=
  (List.insertionSort (fun a b => a.1 ≤ b.1) d).foldlM
    (fun acc e =>
      match e.2 with
      | none => none
      | some b => some (acc ++ pathBytes e.1 ++ b))
    ([] : Bytes)

/-- A row of the `file_hashes` table (smart-backup.py:91-99). -/
structure FileHashEntry where
  last_hash : Bytes
  last_modified : Int
  last_backup_id : Option Nat
deriving DecidableEq, Repr

/-- A row of the `backups` table (smart-backup.py:76-89). -/
structure BackupRecord where
  id : Nat
  timestamp : Int
  backup_type : String
  file_count : Nat
  total_size : Nat
  compressed_size : Nat
  checksum : Bytes
  backup_path : PathC
deriving DecidableEq, Repr

/-- The backup index database: the two tables, plus the AUTOINCREMENT counter
assigning the next backup id. -/
structure Index where
  file_hashes : List (PathC × FileHashEntry)
  backups : List BackupRecord
  next_id : Nat
deriving DecidableEq, Repr

/-- A source file selected for backup: its vault-relative path, content,
modification time, and whether the copy step of the per-file try block
(smart-backup.py:202-227) succeeds (`copy_ok = false` models the per-file
exception: the file contributes nothing and the run continues). -/
structure SrcFile where
  path : PathC
  content : Bytes
  mtime : Int
  copy_ok : Bool
deriving DecidableEq, Repr

/-- A regular file as seen by the vault walk of `get_changed_files`
(smart-backup.py:139-145): its relative path, current modification time, and
the value `calculate_file_hash` returns for it when invoked. -/
structure ScanFile where
  rel_path : PathC
  mtime : Int
  current_hash : Bytes
deriving DecidableEq, Repr

/-- Primary-key lookup in an association-list table
(`SELECT ... WHERE file_path = ?`). -/
def lookupEntry {β : Type} (l : List (PathC × β)) (p : PathC) : Option β :=
  (l.find? (fun e => decide (e.1 = p))).map (fun e => e.2)

/-- Writing a file into a directory: an existing file at the same relative
path is overwritten. -/
def fsWrite (d : List (PathC × Bytes)) (p : PathC) (b : Bytes) :
    List (PathC × Bytes) :=
  (d.filter (fun e => !(decide (e.1 = p)))) ++ [(p, b)]

/-- Reading a file from a directory by relative path. -/
def fsRead (d : List (PathC × Bytes)) (p : PathC) : Option Bytes :=
  (d.find? (fun e => decide (e.1 = p))).map (fun e => e.2)

/-- The compression predicate of the copy loop (smart-backup.py:203):
`self.config["compression"] and file_path.suffix in ['.md', '.txt', '.json']`. -/
def compressible (comp : Bool) (p : PathC) : Bool :=
  comp &&
    (decide (pySuffix p = ['.', 'm', 'd']) || decide (pySuffix p = ['.', 't', 'x', 't']) ||
      decide (pySuffix p = ['.', 'j', 's', 'o', 'n']))

/-- The relative path under which a selected file is stored in the backup
directory: the mirrored path with ".gz" appended when compressed
(smart-backup.py:206-211). -/
def storedName (comp : Bool) (f : SrcFile) : PathC :=
  if compressible comp f.path then f.path ++ ['.', 'g', 'z'] else f.path

/-- The bytes stored for a selected file: gzip-compressed when compressible,
verbatim otherwise (smart-backup.py:203-211). -/
def storedBytes (comp : Bool) (f : SrcFile) : Bytes :=
  if compressible comp f.path then gzipCompress f.content else f.content

/-- The backup directory produced by the copy loop of `create_backup`
(smart-backup.py:195-227): each successfully copied file is written under its
stored name; a failing file is skipped. -/
def buildBackupDir (comp : Bool) (files : List SrcFile) : List (PathC × Bytes) :=
  files.foldl
    (fun d f => if f.copy_ok then fsWrite d (storedName comp f) (storedBytes comp f) else d)
    []

/-- The `INSERT OR REPLACE INTO file_hashes (file_path, last_hash,
last_modified) VALUES (?, ?, ?)` statement (smart-backup.py:217-221).  The
statement names no `last_backup_id` column, so the replaced row's
`last_backup_id` is NULL (`none`). -/
def upsert_file_hash (idx : Index) (p : PathC) (hash : Bytes) (mtime : Int) :
    Index :=
  { idx with
    file_hashes :=
      (idx.file_hashes.filter (fun e => !(decide (e.1 = p)))) ++
        [(p, ⟨hash, mtime, none⟩)] }

/-- The first database transaction of `create_backup`: the
`with sqlite3.connect` block around the copy loop (smart-backup.py:192-227),
committing one `file_hashes` upsert per successfully copied file. -/
def backupTxn1 (files : List SrcFile) (idx : Index) : Index :=
  files.foldl
    (fun i f =>
      if f.copy_ok then upsert_file_hash i f.path (calculate_file_hash f.content) f.mtime
      else i)
    idx

/-- `copied_files` at the end of the copy loop (smart-backup.py:224). -/
def runFileCount (files : List SrcFile) : Nat :=
  (files.filter (fun f => f.copy_ok)).length

/-- `total_size` at the end of the copy loop (smart-backup.py:223): the sum of
the source sizes of the successfully copied files. -/
def runTotalSize (files : List SrcFile) : Nat :=
  ((files.filter (fun f => f.copy_ok)).map (fun f => f.content.length)).sum

/-- `compressed_size` (smart-backup.py:233): the sum of the sizes of the files
in the backup directory. -/
def runCompressedSize (comp : Bool) (files : List SrcFile) : Nat :=
  ((buildBackupDir comp files).map (fun e => e.2.length)).sum

/-- The whole-run checksum (smart-backup.py:230). -/
def runChecksum (comp : Bool) (files : List SrcFile) : Bytes :=
  calculate_backup_checksum (buildBackupDir comp files)

/-- `round(x, 2)` over the exact-rational model of floats. -/
def round2 (q : Rat) : Rat := ((round (q * 100) : Int) : Rat) / 100

/-- The compression-ratio computation of the run metadata
(smart-backup.py:241):
`round((1 - compressed_size / total_size) * 100, 2) if total_size > 0 else 0`. -/
def compression_ratio_pct (compressed total : Nat) : Rat :=
  if 0 < total then round2 ((1 - (compressed : Rat) / (total : Rat)) * 100) else 0

/-- The compression ratio reported in `metadata["backup_stats"]` for a run. -/
def backupMetadataRatio (comp : Bool) (files : List SrcFile) : Rat :=
  compression_ratio_pct (runCompressedSize comp files) (runTotalSize files)

/-- The second database transaction of `create_backup`: the
`with sqlite3.connect` block inserting the run's `BackupRecord`
(smart-backup.py:245-256), with the id assigned by AUTOINCREMENT. -/
def backupTxn2 (comp : Bool) (files : List SrcFile) (timestamp : Int)
    (backup_type : String) (backup_path : PathC) (idx : Index) : Index :=
  { idx with
    backups :=
      idx.backups ++
        [{ id := idx.next_id
           timestamp := timestamp
           backup_type := backup_type
           file_count := runFileCount files
           total_size := runTotalSize files
           compressed_size := runCompressedSize comp files
           checksum := runChecksum comp files
           backup_path := backup_path }]
    next_id := idx.next_id + 1 }

/-- The sequence of database transactions committed by one `create_backup`
run, in commit order: the source opens two separate `sqlite3.connect` context
managers, one around the copy loop (line 192) and one around the record
insertion (line 245), each committing at block exit. -/
def create_backup_txns (comp : Bool) (files : List SrcFile) (timestamp : Int)
    (backup_type : String) (backup_path : PathC) : List (Index → Index) :=
  [backupTxn1 files, backupTxn2 comp files timestamp backup_type backup_path]

/-- `SmartBackup.create_backup` (smart-backup.py:169-271), restricted to its
effect on the index: both transactions applied in order. -/
def create_backup (comp : Bool) (files : List SrcFile) (timestamp : Int)
    (backup_type : String) (backup_path : PathC) (idx : Index) : Index :=
  backupTxn2 comp files timestamp backup_type backup_path (backupTxn1 files idx)

/-- The index state visible after a run is interrupted once `k` of its
transactions have committed: the storage engine's atomicity guarantee rolls
back any transaction in flight, so exactly the first `k` committed
transactions are applied. -/
def indexAfterCrash (txns : List (Index → Index)) (k : Nat) (idx : Index) :
    Index :=
  (txns.take k).foldl (fun i t => t i) idx

/-- The per-file change decision of `get_changed_files`
(smart-backup.py:147-165): a file with no `file_hashes` row is changed; a file
whose modification time advanced is changed exactly when its freshly computed
hash differs from the recorded one; otherwise it is unchanged. -/
def changedCond (fh : List (PathC × FileHashEntry)) (f : ScanFile) : Bool :=
  match lookupEntry fh f.rel_path with
  | some e =>
    if e.last_modified < f.mtime then decide (!(f.current_hash = e.last_hash)) else false
  | none => true

/-- `SmartBackup.get_changed_files` (smart-backup.py:132-167): walks the given
regular files, skips excluded ones, and collects the changed ones in walk
order. -/
def get_changed_files (vaultParts : List PathC) (patterns : List PathC)
    (fh : List (PathC × FileHashEntry)) (files : List ScanFile) : List PathC :=
  files.foldl
    (fun acc f =>
      if should_exclude vaultParts patterns f.rel_path then acc
      else if changedCond fh f then acc ++ [f.rel_path] else acc)
    []

/-- `SELECT ... FROM backups WHERE id = ?` followed by `fetchone`. -/
def findRecord (backups : List BackupRecord) (bid : Nat) : Option BackupRecord :=
  backups.find? (fun r => decide (r.id = bid))

/-- `SmartBackup.verify_backup` (smart-backup.py:320-351).  The filesystem is
a map from a backup path to its directory listing (`none`: directory missing);
a listed file's content is `none` when the file is unreadable.  The result is
`some b` for a normal boolean return and `none` when the checksum
recomputation raises. -/
def verify_backup (idx : Index) (fs : PathC → Option (List (PathC × Option Bytes)))
    (bid : Nat) : Option Bool :=
  match findRecord idx.backups bid with
  | none => some false
  | some r =>
    match fs r.backup_path with
    | none => some false
    | some dir =>
      match calculate_backup_checksum_run dir with
      | none => none
      | some c => some (decide (c = r.checksum))

/-- The retention cutoff (smart-backup.py:384):
`datetime.now() - timedelta(days=retention_days)`, in seconds. -/
def retentionCutoff (now retention_days : Int) : Int :=
  now - retention_days * 86400

/-- The `SELECT id, backup_path FROM backups WHERE timestamp < ?` result of
the cleanup pass (smart-backup.py:388-393): the records strictly older than
the cutoff. -/
def cleanupOldRows (idx : Index) (now retention_days : Int) : List BackupRecord :=
  idx.backups.filter (fun r => decide (r.timestamp < retentionCutoff now retention_days))

/-- The ids whose rows the cleanup loop deletes (smart-backup.py:395-405):
walking the eligible records in order, a record contributes its id when its
directory was removed successfully or was already absent; an `shutil.rmtree`
exception skips the row deletion and continues with the next record.
`dirExists` tells whether a backup's storage directory is present; `rmtreeOk`
tells whether its recursive removal succeeds. -/
def cleanupDeletedIds (idx : Index) (now retention_days : Int)
    (dirExists rmtreeOk : PathC → Bool) : List Nat :=
  (cleanupOldRows idx now retention_days).foldl
    (fun acc r =>
      if dirExists r.backup_path then
        if rmtreeOk r.backup_path then acc ++ [r.id] else acc
      else acc ++ [r.id])
    ([] : List Nat)

/-- `SmartBackup.cleanup_old_backups` (smart-backup.py:380-407): the rows of
the deleted ids are removed from the `backups` table (`DELETE FROM backups
WHERE id = ?` per deleted record, committed at the end of the pass). -/
def cleanup_old_backups (idx : Index) (now retention_days : Int)
    (dirExists : PathC → Bool) (rmtreeOk : PathC → Bool) : Index :=
  { idx with
    backups := idx.backups.filter
      (fun r => !((cleanupDeletedIds idx now retention_days dirExists rmtreeOk).contains r.id)) }

/-- The restore loop of `SmartBackup.restore_backup` (smart-backup.py:436-449):
every stored file whose suffix is ".gz" is decompressed into the destination
with the suffix stripped; every other stored file is copied verbatim.  `none`
models the uncaught exception gzip raises on a stored ".gz" file that is not
gzip data. -/
def restoreDir (stored : List (PathC × Bytes)) : Option (List (PathC × Bytes)) :=
  stored.foldlM
    (fun d e =>
      if pySuffix e.1 = ['.', 'g', 'z'] then
        (gzipDecompress e.2).map (fun b => fsWrite d (withSuffixEmpty e.1) b)
      else some (fsWrite d e.1 e.2))
    []

/-- The row-deletion decision of the cleanup loop for an eligible record
(smart-backup.py:395-405): the row is deleted when the storage directory was
removed successfully or was already absent, and kept when `shutil.rmtree`
raised. -/
def rowDeleted (dirExists rmtreeOk : PathC → Bool) (r : BackupRecord) : Bool :=
  if dirExists r.backup_path then rmtreeOk r.backup_path else true

/-! ### Generic list helpers -/

theorem mem_foldl_cond {α β : Type} (l : List α) (p : α → Bool) (g : α → β)
    (acc : List β) (x : β) :
    (x ∈ l.foldl (fun a f => if p f then a ++ [g f] else a) acc) ↔
      x ∈ acc ∨ ∃ f, f ∈ l ∧ p f = true ∧ g f = x := by
  induction l generalizing acc with
  | nil => simp
  | cons h t ih =>
    simp only [List.foldl_cons]
    by_cases hp : p h = true
    · simp only [hp, if_true, ih, List.mem_append, List.mem_singleton]
      constructor
      · rintro ((hx | hx) | ⟨f, hf, hpf, hgf⟩)
        · exact Or.inl hx
        · exact Or.inr ⟨h, List.mem_cons_self _ _, hp, hx.symm⟩
        · exact Or.inr ⟨f, List.mem_cons_of_mem _ hf, hpf, hgf⟩
      · rintro (hx | ⟨f, hf, hpf, hgf⟩)
        · exact Or.inl (Or.inl hx)
        · rcases List.mem_cons.mp hf with rfl | hf
          · exact Or.inl (Or.inr hgf.symm)
          · exact Or.inr ⟨f, hf, hpf, hgf⟩
    · simp only [hp, if_false, ih]
      constructor
      · rintro (hx | ⟨f, hf, hpf, hgf⟩)
        · exact Or.inl hx
        · exact Or.inr ⟨f, List.mem_cons_of_mem _ hf, hpf, hgf⟩
      · rintro (hx | ⟨f, hf, hpf, hgf⟩)
        · exact Or.inl hx
        · rcases List.mem_cons.mp hf with rfl | hf
          · exact absurd hpf hp
          · exact Or.inr ⟨f, hf, hpf, hgf⟩

theorem foldl_congr_fun {α β : Type} (l : List α) (f g : β → α → β) (b : β)
    (h : ∀ x y, f x y = g x y) : l.foldl f b = l.foldl g b := by
  have hfg : f = g := funext fun x => funext fun y => h x y
  rw [hfg]

/-! ### Index lookup and upsert lemmas -/

theorem find?_key_filter_ne {β : Type} (l : List (PathC × β)) (p q : PathC)
    (hne : ¬q = p) :
    (l.filter (fun e => !(decide (e.1 = p)))).find? (fun e => decide (e.1 = q)) =
      l.find? (fun e => decide (e.1 = q)) := by
  induction l with
  | nil => rfl
  | cons e t ih =>
    have hpq : ¬p = q := fun hh => hne hh.symm
    by_cases hq : e.1 = q
    · have hp : ¬e.1 = p := fun hh => hne (hq ▸ hh)
      simp [List.filter_cons, hp, List.find?_cons, hq, hne]
    · by_cases hp : e.1 = p
      · simp [List.filter_cons, hp, List.find?_cons, hq, ih, hpq]
      · simp [List.filter_cons, hp, List.find?_cons, hq, ih]

theorem lookupEntry_upsert_self (idx : Index) (p : PathC) (h : Bytes) (m : Int) :
    lookupEntry (upsert_file_hash idx p h m).file_hashes p = some ⟨h, m, none⟩ := by
  unfold upsert_file_hash lookupEntry
  simp only
  rw [List.find?_append]
  have h1 : (idx.file_hashes.filter (fun e => !(decide (e.1 = p)))).find?
      (fun e => decide (e.1 = p)) = none := by
    rw [List.find?_eq_none]
    intro e he
    rcases List.mem_filter.mp he with ⟨_, hkeep⟩
    simpa using hkeep
  rw [h1]
  simp [List.find?_cons]

theorem lookupEntry_upsert_ne (idx : Index) (p : PathC) (h : Bytes) (m : Int)
    (q : PathC) (hne : ¬q = p) :
    lookupEntry (upsert_file_hash idx p h m).file_hashes q =
      lookupEntry idx.file_hashes q := by
  unfold upsert_file_hash lookupEntry
  simp only
  rw [List.find?_append, find?_key_filter_ne idx.file_hashes p q hne]
  have hpq : ¬p = q := fun hh => hne hh.symm
  have h2 : (List.find? (fun e => decide (e.1 = q))
      [(p, (⟨h, m, none⟩ : FileHashEntry))]) = none := by
    simp [List.find?_cons, hpq]
  rw [h2, Option.or_none]

theorem backupTxn1_backups (files : List SrcFile) (idx : Index) :
    (backupTxn1 files idx).backups = idx.backups ∧
      (backupTxn1 files idx).next_id = idx.next_id := by
  induction files generalizing idx with
  | nil => exact ⟨rfl, rfl⟩
  | cons f t ih =>
    show (backupTxn1 t _).backups = _ ∧ (backupTxn1 t _).next_id = _
    by_cases hok : f.copy_ok = true
    · simpa [hok] using ih (upsert_file_hash idx f.path (calculate_file_hash f.content) f.mtime)
    · simpa [hok] using ih idx

theorem lookupEntry_backupTxn1_of_not_mem (t : List SrcFile) (idx : Index)
    (q : PathC) (h : ∀ g ∈ t, ¬q = g.path) :
    lookupEntry (backupTxn1 t idx).file_hashes q = lookupEntry idx.file_hashes q := by
  induction t generalizing idx with
  | nil => rfl
  | cons g t ih =>
    have hg : ¬q = g.path := h g (List.mem_cons_self _ _)
    show lookupEntry (backupTxn1 t _).file_hashes q = _
    rw [ih _ (fun g' hg' => h g' (List.mem_cons_of_mem _ hg'))]
    by_cases hok : g.copy_ok = true
    · simp [hok, lookupEntry_upsert_ne _ _ _ _ _ hg]
    · simp [hok]

theorem lookupEntry_backupTxn1_mem (files : List SrcFile) (idx : Index)
    (f : SrcFile) (hnd : (files.map (fun f => f.path)).Nodup) (hf : f ∈ files)
    (hok : f.copy_ok = true) :
    lookupEntry (backupTxn1 files idx).file_hashes f.path =
      some ⟨calculate_file_hash f.content, f.mtime, none⟩ := by
  induction files generalizing idx with
  | nil => cases hf
  | cons g t ih =>
    rw [List.map_cons, List.nodup_cons] at hnd
    rcases List.mem_cons.mp hf with rfl | hf'
    · show lookupEntry (backupTxn1 t _).file_hashes f.path = _
      rw [lookupEntry_backupTxn1_of_not_mem t _ f.path
        (fun g' hg' heq => hnd.1 (heq ▸ List.mem_map_of_mem (fun f => f.path) hg'))]
      simp [hok, lookupEntry_upsert_self]
    · exact ih _ hnd.2 hf'


/-! ### Claim C2: the last_backup_id back-reference -/

/-- Claim C2 counterexample: a backup run that copies `a.md` inserts its
`BackupRecord` with id 1, yet the `FileHashEntry` it upserts for `a.md`
carries `last_backup_id = none` (NULL), not a reference to record 1 — the
`INSERT OR REPLACE` statement at smart-backup.py:217-221 never writes the
`last_backup_id` column. -/
theorem last_backup_id_counterexample :
    (create_backup true [⟨"a.md".toList, [1, 2], 5, true⟩] 10 "manual"
        "b1".toList ⟨[], [], 1⟩).backups.map (fun r => r.id) = [1] ∧
    ((lookupEntry (create_backup true [⟨"a.md".toList, [1, 2], 5, true⟩] 10 "manual"
        "b1".toList ⟨[], [], 1⟩).file_hashes "a.md".toList).map
      (fun e => e.last_backup_id)) = some none ∧
    ¬ ((some (none : Option Nat) : Option (Option Nat)) = some (some 1)) := by
  decide

/-- Claim C2 (amended): `last_backup_id` is never populated by the Backup
Writer — after any backup run, the `FileHashEntry` of every file the run
copied holds the freshly computed hash and modification time with
`last_backup_id = none` (NULL), never a reference to the run's
`BackupRecord`. -/
theorem last_backup_id_always_null (comp : Bool) (files : List SrcFile)
    (ts : Int) (bt : String) (bp : PathC) (idx : Index) (f : SrcFile)
    (hnd : (files.map (fun f => f.path)).Nodup) (hf : f ∈ files)
    (hok : f.copy_ok = true) :
    lookupEntry (create_backup comp files ts bt bp idx).file_hashes f.path =
      some ⟨calculate_file_hash f.content, f.mtime, none⟩ :=
  lookupEntry_backupTxn1_mem files idx f hnd hf hok

/-- Witness for the amended C2 at a concrete run. -/
theorem last_backup_id_always_null_witness :
    lookupEntry (create_backup true [⟨"a.md".toList, [1, 2], 5, true⟩] 10 "manual"
        "b1".toList ⟨[], [], 1⟩).file_hashes "a.md".toList =
      some ⟨[1, 2], 5, none⟩ :=
  last_backup_id_always_null true [⟨"a.md".toList, [1, 2], 5, true⟩] 10 "manual"
    "b1".toList ⟨[], [], 1⟩ ⟨"a.md".toList, [1, 2], 5, true⟩
    (by decide) (by decide) (by decide)

/-! ### Claim C1: transactional atomicity of a backup run -/

/-- Claim C1 counterexample: in the run backing up `a.md` from an empty index,
the state after the first committed transaction (the crash point between the
two `sqlite3.connect` blocks, smart-backup.py:192-227 and 245-256) is neither
the prior index nor the fully-updated index: it already contains the run's
`file_hashes` upsert while containing no `BackupRecord` for the run. -/
theorem single_transaction_counterexample :
    ¬ (indexAfterCrash (create_backup_txns true [⟨"a.md".toList, [1, 2], 5, true⟩]
        10 "manual" "b1".toList) 1 ⟨[], [], 1⟩ = ⟨[], [], 1⟩) ∧
    ¬ (indexAfterCrash (create_backup_txns true [⟨"a.md".toList, [1, 2], 5, true⟩]
        10 "manual" "b1".toList) 1 ⟨[], [], 1⟩ =
      indexAfterCrash (create_backup_txns true [⟨"a.md".toList, [1, 2], 5, true⟩]
        10 "manual" "b1".toList) 2 ⟨[], [], 1⟩) ∧
    ((lookupEntry (indexAfterCrash (create_backup_txns true
        [⟨"a.md".toList, [1, 2], 5, true⟩] 10 "manual" "b1".toList) 1
        ⟨[], [], 1⟩).file_hashes "a.md".toList).isSome = true) ∧
    (indexAfterCrash (create_backup_txns true [⟨"a.md".toList, [1, 2], 5, true⟩]
        10 "manual" "b1".toList) 1 ⟨[], [], 1⟩).backups = [] := by
  decide

/-- Claim C1 (amended): a backup run's index mutations are committed in two
separate local transactions, not one: all per-file `FileHashEntry` upserts
commit with the first `sqlite3.connect` block and the `BackupRecord` insertion
commits with the second, so an interruption between the two commits leaves an
index containing every upsert of the run and no backup record for the run
(an interruption inside either block is rolled back to that block's start). -/
theorem create_backup_two_transactions (comp : Bool) (files : List SrcFile)
    (ts : Int) (bt : String) (bp : PathC) (idx : Index)
    (hnd : (files.map (fun f => f.path)).Nodup) :
    create_backup_txns comp files ts bt bp =
      [backupTxn1 files, backupTxn2 comp files ts bt bp] ∧
    (indexAfterCrash (create_backup_txns comp files ts bt bp) 1 idx).backups =
      idx.backups ∧
    (∀ f ∈ files, f.copy_ok = true →
      lookupEntry (indexAfterCrash (create_backup_txns comp files ts bt bp) 1
          idx).file_hashes f.path =
        some ⟨calculate_file_hash f.content, f.mtime, none⟩) ∧
    indexAfterCrash (create_backup_txns comp files ts bt bp) 2 idx =
      create_backup comp files ts bt bp idx := by
  refine ⟨rfl, ?_, ?_, rfl⟩
  · exact (backupTxn1_backups files idx).1
  · intro f hf hok
    exact lookupEntry_backupTxn1_mem files idx f hnd hf hok

/-- Witness for the amended C1 at a concrete run. -/
theorem create_backup_two_transactions_witness :
    lookupEntry (indexAfterCrash (create_backup_txns true
        [⟨"a.md".toList, [1, 2], 5, true⟩] 10 "manual" "b1".toList) 1
        ⟨[], [], 1⟩).file_hashes "a.md".toList = some ⟨[1, 2], 5, none⟩ :=
  (create_backup_two_transactions true [⟨"a.md".toList, [1, 2], 5, true⟩] 10
    "manual" "b1".toList ⟨[], [], 1⟩ (by decide)).2.2.1
    ⟨"a.md".toList, [1, 2], 5, true⟩ (by decide) (by decide)

/-! ### Claim C9: the exclusion filter's substring disjunct -/

/-- Claim C9: `should_exclude` returns true for any path whose relative path
contains, as a plain substring, an exclude pattern with all '*' characters
removed, whether or not the glob disjunct matches. -/
theorem should_exclude_of_substring (vaultParts patterns : List PathC)
    (rel pat : PathC) (hmem : pat ∈ patterns)
    (hsub : (pat.filter (fun c => !(c = '*'))) <:+: rel) :
    should_exclude vaultParts patterns rel = true := by
  unfold should_exclude
  rw [List.any_eq_true]
  refine ⟨pat, hmem, ?_⟩
  rw [Bool.or_eq_true]
  exact Or.inr (decide_eq_true hsub)

/-- Witness for C9: the pattern `*.tmp` excludes `notes.tmpx.md` through the
substring disjunct even though the glob itself does not match that name. -/
theorem should_exclude_of_substring_witness :
    pathMatchParts (splitComponents "notes.tmpx.md".toList)
        (splitComponents "*.tmp".toList) = false ∧
    should_exclude [] ["*.tmp".toList] "notes.tmpx.md".toList = true :=
  ⟨by decide,
   should_exclude_of_substring [] ["*.tmp".toList] "notes.tmpx.md".toList
     "*.tmp".toList (by decide) (by decide)⟩

/-! ### Claim C6: checksum determinism -/

theorem sortEntries_sorted (d : List (PathC × Bytes)) :
    List.Pairwise (fun a b : PathC × Bytes => a.1 ≤ b.1) (sortEntries d) :=
  List.sorted_insertionSort (fun a b : PathC × Bytes => a.1 ≤ b.1) d

theorem sortEntries_eq_of_perm (d1 d2 : List (PathC × Bytes))
    (hperm : d1.Perm d2) (hnd : (d1.map Prod.fst).Nodup) :
    sortEntries d1 = sortEntries d2 := by
  have hp1 : (sortEntries d1).Perm d1 := List.perm_insertionSort _ d1
  have hp2 : (sortEntries d2).Perm d2 := List.perm_insertionSort _ d2
  have hp : (sortEntries d1).Perm (sortEntries d2) :=
    (hp1.trans hperm).trans hp2.symm
  have hnd1 : ((sortEntries d1).map Prod.fst).Nodup :=
    ((hp1.map Prod.fst).symm.nodup) hnd
  have hnd2 : ((sortEntries d2).map Prod.fst).Nodup :=
    (hp.map Prod.fst).nodup hnd1
  have hne1 : List.Pairwise (fun a b : PathC × Bytes => ¬a.1 = b.1) (sortEntries d1) :=
    List.pairwise_map.mp hnd1
  have hne2 : List.Pairwise (fun a b : PathC × Bytes => ¬a.1 = b.1) (sortEntries d2) :=
    List.pairwise_map.mp hnd2
  have hs1 := (sortEntries_sorted d1).and hne1
  have hs2 := (sortEntries_sorted d2).and hne2
  haveI : IsAntisymm (PathC × Bytes) (fun a b => a.1 ≤ b.1 ∧ ¬a.1 = b.1) :=
    ⟨fun a b hab hba => absurd (le_antisymm hab.1 hba.1) hab.2⟩
  exact List.eq_of_perm_of_sorted hp hs1 hs2

/-- Claim C6: the whole-backup checksum is the digest of the sorted sequence
of (relative path, file bytes) pairs, so two backup directories holding the
same relative paths with byte-identical contents — i.e. directory listings
that are permutations of one another — produce equal checksums regardless of
filesystem enumeration order. -/
theorem checksum_deterministic (d1 d2 : List (PathC × Bytes))
    (hperm : d1.Perm d2) (hnd : (d1.map Prod.fst).Nodup) :
    calculate_backup_checksum d1 = calculate_backup_checksum d2 := by
  unfold calculate_backup_checksum
  rw [sortEntries_eq_of_perm d1 d2 hperm hnd]

/-- Witness for C6: two enumeration orders of the same two-file directory
yield the same checksum. -/
theorem checksum_deterministic_witness :
    ([("a.md".toList, [1, 2]), ("b.md".toList, [3])] : List (PathC × Bytes)).Perm
        [("b.md".toList, [3]), ("a.md".toList, [1, 2])] ∧
    calculate_backup_checksum [("a.md".toList, [1, 2]), ("b.md".toList, [3])] =
      calculate_backup_checksum [("b.md".toList, [3]), ("a.md".toList, [1, 2])] :=
  ⟨by decide,
   checksum_deterministic _ _ (by decide) (by decide)⟩

/-! ### Claims C7 and C8: retention cleanup -/

theorem cleanupDeletedIds_mem (idx : Index) (now retention_days : Int)
    (dirExists rmtreeOk : PathC → Bool) (x : Nat) :
    (x ∈ cleanupDeletedIds idx now retention_days dirExists rmtreeOk) ↔
      ∃ r, r ∈ cleanupOldRows idx now retention_days ∧
        rowDeleted dirExists rmtreeOk r = true ∧ r.id = x := by
  unfold cleanupDeletedIds
  rw [foldl_congr_fun (cleanupOldRows idx now retention_days) _
    (fun acc r => if rowDeleted dirExists rmtreeOk r then acc ++ [r.id] else acc) []
    ?hbody]
  · rw [mem_foldl_cond]
    simp
  case hbody =>
    intro acc r
    unfold rowDeleted
    by_cases h1 : dirExists r.backup_path = true <;>
      by_cases h2 : rmtreeOk r.backup_path = true <;> simp [h1, h2]

theorem cleanupDeletedIds_contains_iff (idx : Index) (now retention_days : Int)
    (dirExists rmtreeOk : PathC → Bool)
    (hids : (idx.backups.map (fun r => r.id)).Nodup)
    (r : BackupRecord) (hr : r ∈ idx.backups) :
    ((cleanupDeletedIds idx now retention_days dirExists rmtreeOk).contains r.id = true) ↔
      (r.timestamp < retentionCutoff now retention_days ∧
        rowDeleted dirExists rmtreeOk r = true) := by
  constructor
  · intro hc
    rcases (cleanupDeletedIds_mem idx now retention_days dirExists rmtreeOk r.id).mp
      (List.elem_iff.mp hc) with ⟨r', hr', hdel', hid'⟩
    rcases List.mem_filter.mp hr' with ⟨hr'mem, hel'⟩
    have heq : r' = r := List.inj_on_of_nodup_map hids hr'mem hr hid'
    subst heq
    exact ⟨of_decide_eq_true hel', hdel'⟩
  · rintro ⟨hel, hdel⟩
    exact List.elem_iff.mpr
      ((cleanupDeletedIds_mem idx now retention_days dirExists rmtreeOk r.id).mpr
        ⟨r, List.mem_filter.mpr ⟨hr, decide_eq_true hel⟩, hdel, rfl⟩)

theorem mem_cleanup_backups (idx : Index) (now retention_days : Int)
    (dirExists rmtreeOk : PathC → Bool)
    (hids : (idx.backups.map (fun r => r.id)).Nodup)
    (r : BackupRecord) (hr : r ∈ idx.backups) :
    (r ∈ (cleanup_old_backups idx now retention_days dirExists rmtreeOk).backups) ↔
      ¬(r.timestamp < retentionCutoff now retention_days ∧
        rowDeleted dirExists rmtreeOk r = true) := by
  unfold cleanup_old_backups
  simp only
  rw [List.mem_filter]
  constructor
  · rintro ⟨-, hkeep⟩ hboth
    rw [Bool.not_eq_true'] at hkeep
    have hc := (cleanupDeletedIds_contains_iff idx now retention_days dirExists
      rmtreeOk hids r hr).mpr hboth
    rw [hkeep] at hc
    cases hc
  · intro hnot
    refine ⟨hr, ?_⟩
    rw [Bool.not_eq_true']
    have hc : ¬((cleanupDeletedIds idx now retention_days dirExists rmtreeOk).contains
        r.id = true) :=
      fun hc => hnot ((cleanupDeletedIds_contains_iff idx now retention_days dirExists
        rmtreeOk hids r hr).mp hc)
    exact Bool.eq_false_iff.mpr hc

/-- Claim C8: during cleanup, an eligible record whose directory removal fails
keeps its index row (so it is retried on the next cleanup pass) and the
failure does not disturb the processing of any other record: each record's row
survives cleanup exactly when the record is not past the cutoff, or its
directory existed and its removal failed; the row is deleted exactly when the
record is past the cutoff and its directory was removed successfully or was
already absent. -/
theorem cleanup_failure_preserves_row (idx : Index) (now retention_days : Int)
    (dirExists rmtreeOk : PathC → Bool)
    (hids : (idx.backups.map (fun r => r.id)).Nodup) :
    ∀ r ∈ idx.backups,
      ((r ∈ (cleanup_old_backups idx now retention_days dirExists rmtreeOk).backups) ↔
        ¬(r.timestamp < retentionCutoff now retention_days ∧
          rowDeleted dirExists rmtreeOk r = true)) :=
  fun r hr => mem_cleanup_backups idx now retention_days dirExists rmtreeOk hids r hr

/-- Witness for C8: of two records both past the cutoff, the one whose
directory removal fails survives cleanup and the one whose removal succeeds is
deleted. -/
theorem cleanup_failure_preserves_row_witness :
    (⟨1, 0, "manual", 0, 0, 0, [], "p1".toList⟩ : BackupRecord) ∈
      (cleanup_old_backups
        ⟨[], [⟨1, 0, "manual", 0, 0, 0, [], "p1".toList⟩,
              ⟨2, 0, "manual", 0, 0, 0, [], "p2".toList⟩], 3⟩
        (1000000 : Int) 0
        (fun _ => true) (fun p => decide (p = "p2".toList))).backups ∧
    ¬((⟨2, 0, "manual", 0, 0, 0, [], "p2".toList⟩ : BackupRecord) ∈
      (cleanup_old_backups
        ⟨[], [⟨1, 0, "manual", 0, 0, 0, [], "p1".toList⟩,
              ⟨2, 0, "manual", 0, 0, 0, [], "p2".toList⟩], 3⟩
        (1000000 : Int) 0
        (fun _ => true) (fun p => decide (p = "p2".toList))).backups) :=
  ⟨(cleanup_failure_preserves_row _ 1000000 0 _ _ (by decide) _
      (by decide)).mpr (by decide),
   fun hm => (cleanup_failure_preserves_row _ 1000000 0 _ _ (by decide) _
      (by decide)).mp hm (by decide)⟩

/-- Claim C7: when every eligible directory removal succeeds (or the directory
is already absent), cleanup deletes exactly the records whose timestamp is
strictly older than now minus retention_days; in particular a record one
second older than the cutoff is deleted and a record one second newer is
retained. -/
theorem cleanup_retention_boundary (idx : Index) (now retention_days : Int)
    (dirExists rmtreeOk : PathC → Bool)
    (hids : (idx.backups.map (fun r => r.id)).Nodup)
    (hrm : ∀ r ∈ idx.backups, r.timestamp < retentionCutoff now retention_days →
      rowDeleted dirExists rmtreeOk r = true) :
    ((cleanup_old_backups idx now retention_days dirExists rmtreeOk).backups =
      idx.backups.filter
        (fun r => !(decide (r.timestamp < retentionCutoff now retention_days)))) ∧
    (∀ r ∈ idx.backups, r.timestamp = retentionCutoff now retention_days - 1 →
      ¬(r ∈ (cleanup_old_backups idx now retention_days dirExists rmtreeOk).backups)) ∧
    (∀ r ∈ idx.backups, r.timestamp = retentionCutoff now retention_days + 1 →
      r ∈ (cleanup_old_backups idx now retention_days dirExists rmtreeOk).backups) := by
  refine ⟨?_, ?_, ?_⟩
  · unfold cleanup_old_backups
    simp only
    refine List.filter_congr ?_
    intro r hr
    by_cases hel : r.timestamp < retentionCutoff now retention_days
    · have hc := (cleanupDeletedIds_contains_iff idx now retention_days dirExists
        rmtreeOk hids r hr).mpr ⟨hel, hrm r hr hel⟩
      rw [hc]
      simp [hel]
    · have hc : ((cleanupDeletedIds idx now retention_days dirExists rmtreeOk).contains
          r.id) = false :=
        Bool.eq_false_iff.mpr (fun hc =>
          hel ((cleanupDeletedIds_contains_iff idx now retention_days dirExists
            rmtreeOk hids r hr).mp hc).1)
      rw [hc]
      simp [hel]
  · intro r hr hts hmem
    exact (mem_cleanup_backups idx now retention_days dirExists rmtreeOk hids r hr).mp
      hmem ⟨by omega, hrm r hr (by omega)⟩
  · intro r hr hts
    exact (mem_cleanup_backups idx now retention_days dirExists rmtreeOk hids r hr).mpr
      (fun hc => absurd hc.1 (by omega))

/-- Witness for C7: with cutoff 1000, the record at timestamp 999 is deleted
and the record at timestamp 1001 is retained. -/
theorem cleanup_retention_boundary_witness :
    ¬((⟨1, 999, "manual", 0, 0, 0, [], "p1".toList⟩ : BackupRecord) ∈
      (cleanup_old_backups
        ⟨[], [⟨1, 999, "manual", 0, 0, 0, [], "p1".toList⟩,
              ⟨2, 1001, "manual", 0, 0, 0, [], "p2".toList⟩], 3⟩
        (1000 : Int) 0 (fun _ => false) (fun _ => false)).backups) ∧
    ((⟨2, 1001, "manual", 0, 0, 0, [], "p2".toList⟩ : BackupRecord) ∈
      (cleanup_old_backups
        ⟨[], [⟨1, 999, "manual", 0, 0, 0, [], "p1".toList⟩,
              ⟨2, 1001, "manual", 0, 0, 0, [], "p2".toList⟩], 3⟩
        (1000 : Int) 0 (fun _ => false) (fun _ => false)).backups) :=
  ⟨(cleanup_retention_boundary _ 1000 0 _ _ (by decide) (by decide)).2.1 _
      (by decide) (by decide),
   (cleanup_retention_boundary _ 1000 0 _ _ (by decide) (by decide)).2.2 _
      (by decide) (by decide)⟩

/-! ### Claim C4: verify -/

/-- Claim C4 counterexample: with an existing record whose directory contains
one unreadable file, `verify_backup` raises (the `open` inside
`calculate_backup_checksum` has no handler) instead of returning false as the
claim states. -/
theorem verify_unreadable_raises_counterexample :
    verify_backup ⟨[], [⟨1, 0, "manual", 0, 0, 0, [], "d1".toList⟩], 2⟩
      (fun p => if p = "d1".toList then some [("x".toList, none)] else none) 1 =
      none ∧
    ¬(verify_backup ⟨[], [⟨1, 0, "manual", 0, 0, 0, [], "d1".toList⟩], 2⟩
      (fun p => if p = "d1".toList then some [("x".toList, none)] else none) 1 =
      some false) := by
  decide

/-- Claim C4 (amended): `verify_backup` returns true iff the record exists,
its directory exists, and the checksum recomputation completes with a value
equal to the stored checksum; it returns false when the record is absent, the
directory is missing, or the recomputed checksum differs; but when some file
in the directory is unreadable the recomputation's exception propagates and
`verify_backup` raises instead of returning false. -/
theorem verify_backup_spec (idx : Index)
    (fs : PathC → Option (List (PathC × Option Bytes))) (bid : Nat) :
    (verify_backup idx fs bid = some true ↔
      ∃ r, findRecord idx.backups bid = some r ∧
        ∃ dir, fs r.backup_path = some dir ∧
          calculate_backup_checksum_run dir = some r.checksum) ∧
    (findRecord idx.backups bid = none → verify_backup idx fs bid = some false) ∧
    (∀ r, findRecord idx.backups bid = some r → fs r.backup_path = none →
      verify_backup idx fs bid = some false) ∧
    (∀ r dir c, findRecord idx.backups bid = some r → fs r.backup_path = some dir →
      calculate_backup_checksum_run dir = some c → ¬c = r.checksum →
      verify_backup idx fs bid = some false) ∧
    (∀ r dir, findRecord idx.backups bid = some r → fs r.backup_path = some dir →
      calculate_backup_checksum_run dir = none → verify_backup idx fs bid = none) := by
  refine ⟨?_, ?_, ?_, ?_, ?_⟩
  · unfold verify_backup
    cases hfind : findRecord idx.backups bid with
    | none => simp
    | some r =>
      cases hfs : fs r.backup_path with
      | none => simp [hfs]
      | some dir =>
        cases hsum : calculate_backup_checksum_run dir with
        | none => simp [hfs, hsum]
        | some c => simp [hfs, hsum, eq_comm]
  · intro hfind
    simp [verify_backup, hfind]
  · intro r hfind hfs
    simp [verify_backup, hfind, hfs]
  · intro r dir c hfind hfs hsum hne
    simp [verify_backup, hfind, hfs, hsum, hne]
  · intro r dir hfind hfs hsum
    simp [verify_backup, hfind, hfs, hsum]

/-- Witness for the amended C4: a record whose stored checksum matches its
on-disk directory verifies true. -/
theorem verify_backup_spec_witness :
    verify_backup ⟨[], [⟨1, 0, "manual", 1, 1, 1, [120, 7], "d1".toList⟩], 2⟩
      (fun p => if p = "d1".toList then some [("x".toList, some [7])] else none)
      1 = some true :=
  (verify_backup_spec ⟨[], [⟨1, 0, "manual", 1, 1, 1, [120, 7], "d1".toList⟩], 2⟩
      (fun p => if p = "d1".toList then some [("x".toList, some [7])] else none)
      1).1.mpr
    ⟨⟨1, 0, "manual", 1, 1, 1, [120, 7], "d1".toList⟩, by decide,
     [("x".toList, some [7])], by decide, by decide⟩

/-! ### Claim C5: the change detector -/

theorem mem_get_changed_files (vp pats : List PathC)
    (fh : List (PathC × FileHashEntry)) (files : List ScanFile) (x : PathC) :
    (x ∈ get_changed_files vp pats fh files) ↔
      ∃ f, f ∈ files ∧
        (!(should_exclude vp pats f.rel_path) && changedCond fh f) = true ∧
        f.rel_path = x := by
  unfold get_changed_files
  rw [foldl_congr_fun files _
    (fun acc f =>
      if (!(should_exclude vp pats f.rel_path) && changedCond fh f) then
        acc ++ [f.rel_path]
      else acc)
    [] ?hbody]
  · rw [mem_foldl_cond]
    simp
  case hbody =>
    intro acc f
    by_cases h1 : should_exclude vp pats f.rel_path = true <;>
      by_cases h2 : changedCond fh f = true <;> simp [h1, h2]

theorem not_mem_changed_of_entry_not_advanced (vp pats : List PathC)
    (fh : List (PathC × FileHashEntry)) (files : List ScanFile) (f : ScanFile)
    (e : FileHashEntry) (hnd : (files.map (fun f => f.rel_path)).Nodup)
    (hf : f ∈ files) (hee : lookupEntry fh f.rel_path = some e)
    (hm : ¬e.last_modified < f.mtime) :
    ¬(f.rel_path ∈ get_changed_files vp pats fh files) := by
  intro hmem
  rcases (mem_get_changed_files vp pats fh files f.rel_path).mp hmem with
    ⟨g, hg, hcond, hrel⟩
  have heq : g = f := List.inj_on_of_nodup_map hnd hg hf hrel
  subst heq
  rw [Bool.and_eq_true] at hcond
  have h2 := hcond.2
  simp only [changedCond, hee] at h2
  simp [hm] at h2

/-- Claim C5: for every non-excluded regular file seen by the Change Detector:
a file with no FileHashEntry is included in the changed set; a file whose
modification time advanced is included exactly when its freshly computed hash
differs from the recorded hash; a file whose modification time did not advance
is excluded; and in particular a file backed up by a previous run and
unmodified since (modification time not past the recorded one) is excluded
from the next run's set computed over the post-run index. -/
theorem change_detector_spec (vp pats : List PathC)
    (fh : List (PathC × FileHashEntry)) (files : List ScanFile) (f : ScanFile)
    (hnd : (files.map (fun f => f.rel_path)).Nodup) (hf : f ∈ files)
    (hexcl : should_exclude vp pats f.rel_path = false) :
    (lookupEntry fh f.rel_path = none →
      f.rel_path ∈ get_changed_files vp pats fh files) ∧
    (∀ e, lookupEntry fh f.rel_path = some e → e.last_modified < f.mtime →
      ((f.rel_path ∈ get_changed_files vp pats fh files) ↔
        ¬f.current_hash = e.last_hash)) ∧
    (∀ e, lookupEntry fh f.rel_path = some e → ¬e.last_modified < f.mtime →
      ¬(f.rel_path ∈ get_changed_files vp pats fh files)) ∧
    (∀ (comp : Bool) (prev : List SrcFile) (ts : Int) (bt : String) (bp : PathC)
        (idx : Index) (sf : SrcFile),
      (prev.map (fun g => g.path)).Nodup → sf ∈ prev → sf.copy_ok = true →
      f.rel_path = sf.path → ¬sf.mtime < f.mtime →
      ¬(f.rel_path ∈ get_changed_files vp pats
          (create_backup comp prev ts bt bp idx).file_hashes files)) := by
  refine ⟨?_, ?_, ?_, ?_⟩
  · intro hnone
    exact (mem_get_changed_files vp pats fh files f.rel_path).mpr
      ⟨f, hf, by simp [hexcl, changedCond, hnone], rfl⟩
  · intro e hee hlt
    constructor
    · intro hmem
      rcases (mem_get_changed_files vp pats fh files f.rel_path).mp hmem with
        ⟨g, hg, hcond, hrel⟩
      have heq : g = f := List.inj_on_of_nodup_map hnd hg hf hrel
      subst heq
      rw [Bool.and_eq_true] at hcond
      have h2 := hcond.2
      simp only [changedCond, hee] at h2
      simp only [hlt, if_true] at h2
      simpa using h2
    · intro hne
      exact (mem_get_changed_files vp pats fh files f.rel_path).mpr
        ⟨f, hf, by simp [hexcl, changedCond, hee, hlt, hne], rfl⟩
  · intro e hee hm
    exact not_mem_changed_of_entry_not_advanced vp pats fh files f e hnd hf hee hm
  · intro comp prev ts bt bp idx sf hndp hsf hok hrel hm
    have hee : lookupEntry (create_backup comp prev ts bt bp idx).file_hashes
        f.rel_path = some ⟨calculate_file_hash sf.content, sf.mtime, none⟩ := by
      rw [hrel]
      exact lookupEntry_backupTxn1_mem prev idx sf hndp hsf hok
    exact not_mem_changed_of_entry_not_advanced vp pats _ files f _ hnd hf hee hm

/-- Witness for C5: a file with no index entry is reported changed. -/
theorem change_detector_spec_witness :
    "new.md".toList ∈ get_changed_files [] [] [] [⟨"new.md".toList, 3, [7]⟩] :=
  (change_detector_spec [] [] [] [⟨"new.md".toList, 3, [7]⟩]
    ⟨"new.md".toList, 3, [7]⟩ (by decide) (by decide) (by decide)).1 (by decide)

/-! ### Claim C10: empty or fully-failed runs -/

theorem foldl_if_true {α β : Type} (l : List α) (c : α → Bool) (g : β → α → β)
    (b : β) (h : ∀ x ∈ l, c x = true) :
    l.foldl (fun d x => if c x then g d x else d) b = l.foldl g b := by
  induction l generalizing b with
  | nil => rfl
  | cons a t ih =>
    rw [List.foldl_cons, List.foldl_cons, if_pos (h a (List.mem_cons_self _ _))]
    exact ih (g b a) (fun x hx => h x (List.mem_cons_of_mem _ hx))

theorem foldl_if_false {α β : Type} (l : List α) (c : α → Bool) (g : β → α → β)
    (b : β) (h : ∀ x ∈ l, c x = false) :
    l.foldl (fun d x => if c x then g d x else d) b = b := by
  induction l generalizing b with
  | nil => rfl
  | cons a t ih =>
    rw [List.foldl_cons, if_neg]
    · exact ih b (fun x hx => h x (List.mem_cons_of_mem _ hx))
    · rw [h a (List.mem_cons_self _ _)]
      exact Bool.false_ne_true

/-- Claim C10: a run that selects no files, or whose every selected file fails
to copy, still completes: the compression ratio is the guarded value 0 (no
division by zero), no file-hash upsert happens, and a `BackupRecord` with
`file_count` 0, sizes 0 and the checksum of the empty backup directory is
still inserted with the next id. -/
theorem create_backup_empty_run (comp : Bool) (files : List SrcFile) (ts : Int)
    (bt : String) (bp : PathC) (idx : Index)
    (hfail : ∀ f ∈ files, f.copy_ok = false) :
    backupMetadataRatio comp files = 0 ∧
    create_backup comp files ts bt bp idx =
      { idx with
        backups := idx.backups ++
          [⟨idx.next_id, ts, bt, 0, 0, 0, calculate_backup_checksum [], bp⟩]
        next_id := idx.next_id + 1 } := by
  have hfc : files.filter (fun f => f.copy_ok) = [] :=
    List.filter_eq_nil_iff.mpr (fun a ha => by rw [hfail a ha]; exact Bool.false_ne_true)
  have hbd : buildBackupDir comp files = [] :=
    foldl_if_false files (fun f => f.copy_ok)
      (fun d f => fsWrite d (storedName comp f) (storedBytes comp f)) [] hfail
  have h1 : backupTxn1 files idx = idx :=
    foldl_if_false files (fun f => f.copy_ok)
      (fun i f => upsert_file_hash i f.path (calculate_file_hash f.content) f.mtime)
      idx hfail
  refine ⟨?_, ?_⟩
  · unfold backupMetadataRatio compression_ratio_pct runCompressedSize runTotalSize
    rw [hfc, hbd]
    simp
  · unfold create_backup
    rw [h1]
    unfold backupTxn2 runFileCount runTotalSize runCompressedSize runChecksum
    rw [hfc, hbd]
    simp

/-- Witness for C10: a run whose only selected file fails to copy. -/
theorem create_backup_empty_run_witness :
    backupMetadataRatio true [⟨"a.md".toList, [1, 2], 5, false⟩] = 0 ∧
    create_backup true [⟨"a.md".toList, [1, 2], 5, false⟩] 10 "manual" "b1".toList
      ⟨[], [], 1⟩ =
      ⟨[], [⟨1, 10, "manual", 0, 0, 0, calculate_backup_checksum [], "b1".toList⟩], 2⟩ :=
  create_backup_empty_run true [⟨"a.md".toList, [1, 2], 5, false⟩] 10 "manual"
    "b1".toList ⟨[], [], 1⟩ (by decide)

/-! ### Claim C3: backup/restore round trip -/

theorem dirPart_append_lastComponent (p : PathC) :
    dirPart p ++ lastComponent p = p := by
  unfold dirPart lastComponent
  rw [← List.reverse_append, List.takeWhile_append_dropWhile, List.reverse_reverse]

theorem lastComponent_append_gz (p : PathC) :
    lastComponent (p ++ ['.', 'g', 'z']) = lastComponent p ++ ['.', 'g', 'z'] := by
  unfold lastComponent
  rw [List.reverse_append]
  show (List.takeWhile (fun c => !(c = '/')) ('z' :: 'g' :: '.' :: p.reverse)).reverse = _
  rw [List.takeWhile_cons_of_pos (by decide), List.takeWhile_cons_of_pos (by decide),
    List.takeWhile_cons_of_pos (by decide)]
  simp

theorem dirPart_append_gz (p : PathC) :
    dirPart (p ++ ['.', 'g', 'z']) = dirPart p := by
  unfold dirPart
  rw [List.reverse_append]
  show (List.dropWhile (fun c => !(c = '/')) ('z' :: 'g' :: '.' :: p.reverse)).reverse = _
  rw [List.dropWhile_cons_of_pos (by decide), List.dropWhile_cons_of_pos (by decide),
    List.dropWhile_cons_of_pos (by decide)]

theorem lastDotIdx_append_gz (n : PathC) :
    lastDotIdx (n ++ ['.', 'g', 'z']) = some n.length := by
  unfold lastDotIdx
  rw [List.reverse_append]
  show (match List.findIdx? (fun c => decide (c = '.'))
      ('z' :: 'g' :: '.' :: n.reverse) with
    | none => none
    | some j => some ((n ++ ['.', 'g', 'z']).length - 1 - j)) = some n.length
  rw [List.findIdx?_cons, List.findIdx?_cons, List.findIdx?_cons]
  simp [List.length_append]

theorem pySuffix_append_gz (p : PathC) (h : ¬lastComponent p = []) :
    pySuffix (p ++ ['.', 'g', 'z']) = ['.', 'g', 'z'] := by
  have hpos : 0 < (lastComponent p).length := List.length_pos.mpr h
  unfold pySuffix
  rw [lastComponent_append_gz, lastDotIdx_append_gz]
  show (if 0 < (lastComponent p).length ∧
      (lastComponent p).length < (lastComponent p ++ ['.', 'g', 'z']).length - 1 then
      (lastComponent p ++ ['.', 'g', 'z']).drop (lastComponent p).length
    else []) = ['.', 'g', 'z']
  rw [if_pos ⟨hpos, by simp [List.length_append]⟩]
  exact List.drop_left _ _

theorem withSuffixEmpty_append_gz (p : PathC) (h : ¬lastComponent p = []) :
    withSuffixEmpty (p ++ ['.', 'g', 'z']) = p := by
  unfold withSuffixEmpty
  rw [pySuffix_append_gz p h, lastComponent_append_gz, dirPart_append_gz]
  rw [if_neg (by decide)]
  have hlen : (lastComponent p ++ ['.', 'g', 'z']).length -
      (['.', 'g', 'z'] : PathC).length = (lastComponent p).length := by
    simp [List.length_append]
  rw [hlen, List.take_left, dirPart_append_lastComponent]

theorem lastComponent_ne_nil_of_pySuffix (p : PathC) (h : ¬pySuffix p = []) :
    ¬lastComponent p = [] := by
  intro hlc
  apply h
  unfold pySuffix
  rw [hlc]
  rfl

theorem pySuffix_ne_nil_of_compressible (comp : Bool) (p : PathC)
    (h : compressible comp p = true) : ¬pySuffix p = [] := by
  intro hnil
  unfold compressible at h
  rw [hnil] at h
  simp at h

theorem pySuffix_storedName_compressed (comp : Bool) (f : SrcFile)
    (hc : compressible comp f.path = true) :
    pySuffix (f.path ++ ['.', 'g', 'z']) = ['.', 'g', 'z'] :=
  pySuffix_append_gz f.path
    (lastComponent_ne_nil_of_pySuffix f.path (pySuffix_ne_nil_of_compressible comp f.path hc))

theorem storedName_inj (comp : Bool) (f g : SrcFile)
    (hf : ¬pySuffix f.path = ['.', 'g', 'z']) (hg : ¬pySuffix g.path = ['.', 'g', 'z'])
    (h : storedName comp f = storedName comp g) : f.path = g.path := by
  unfold storedName at h
  by_cases hcf : compressible comp f.path = true <;>
    by_cases hcg : compressible comp g.path = true
  · rw [if_pos hcf, if_pos hcg] at h
    exact List.append_cancel_right h
  · rw [if_pos hcf, if_neg hcg] at h
    exact absurd (h ▸ pySuffix_storedName_compressed comp f hcf) hg
  · rw [if_neg hcf, if_pos hcg] at h
    exact absurd (h.symm ▸ pySuffix_storedName_compressed comp g hcg) hf
  · rw [if_neg hcf, if_neg hcg] at h
    exact h

theorem storedName_nodup (comp : Bool) (files : List SrcFile)
    (hnd : (files.map (fun f => f.path)).Nodup)
    (hgz : ∀ f ∈ files, ¬pySuffix f.path = ['.', 'g', 'z']) :
    (files.map (storedName comp)).Nodup := by
  have hfn : files.Nodup := List.Nodup.of_map _ hnd
  refine List.Nodup.map_on ?_ hfn
  intro x hx y hy hxy
  exact List.inj_on_of_nodup_map hnd hx hy (storedName_inj comp x y (hgz x hx) (hgz y hy) hxy)

theorem foldl_fsWrite_eq_map {α : Type} (l : List α) (key : α → PathC)
    (val : α → Bytes) (d : List (PathC × Bytes))
    (hd : ∀ a ∈ l, ∀ e ∈ d, ¬e.1 = key a) (hnd : (l.map key).Nodup) :
    l.foldl (fun d a => fsWrite d (key a) (val a)) d =
      d ++ l.map (fun a => (key a, val a)) := by
  induction l generalizing d with
  | nil => simp
  | cons a t ih =>
    rw [List.map_cons, List.nodup_cons] at hnd
    have hw : fsWrite d (key a) (val a) = d ++ [(key a, val a)] := by
      unfold fsWrite
      rw [List.filter_eq_self.mpr ?hkeep]
      case hkeep =>
        intro e he
        simpa using hd a (List.mem_cons_self _ _) e he
    rw [List.foldl_cons, hw, ih (d ++ [(key a, val a)]) ?hd2 hnd.2]
    · simp
    case hd2 =>
      intro b hb e he
      rcases List.mem_append.mp he with he | he
      · exact hd b (List.mem_cons_of_mem _ hb) e he
      · rw [List.mem_singleton.mp he]
        intro hk
        have hk' : key a = key b := hk
        exact hnd.1 (hk' ▸ List.mem_map_of_mem key hb)

theorem buildBackupDir_all_ok (comp : Bool) (files : List SrcFile)
    (hok : ∀ f ∈ files, f.copy_ok = true)
    (hsn : (files.map (storedName comp)).Nodup) :
    buildBackupDir comp files =
      files.map (fun f => (storedName comp f, storedBytes comp f)) := by
  unfold buildBackupDir
  rw [foldl_if_true files (fun f => f.copy_ok)
    (fun d f => fsWrite d (storedName comp f) (storedBytes comp f)) [] hok]
  have h := foldl_fsWrite_eq_map files (storedName comp) (storedBytes comp) []
    (by intro a ha e he; cases he) hsn
  simpa using h

theorem restore_write_step (comp : Bool) (f : SrcFile) (d : List (PathC × Bytes))
    (hgz : ¬pySuffix f.path = ['.', 'g', 'z']) :
    (if pySuffix (storedName comp f) = ['.', 'g', 'z'] then
        (gzipDecompress (storedBytes comp f)).map
          (fun b => fsWrite d (withSuffixEmpty (storedName comp f)) b)
      else some (fsWrite d (storedName comp f) (storedBytes comp f))) =
      some (fsWrite d f.path f.content) := by
  by_cases hc : compressible comp f.path = true
  · have hnn : ¬lastComponent f.path = [] :=
      lastComponent_ne_nil_of_pySuffix f.path (pySuffix_ne_nil_of_compressible comp f.path hc)
    unfold storedName storedBytes
    rw [if_pos hc, if_pos hc, if_pos (pySuffix_append_gz f.path hnn)]
    show (gzipDecompress (gzipCompress f.content)).map
        (fun b => fsWrite d (withSuffixEmpty (f.path ++ ['.', 'g', 'z'])) b) = _
    rw [withSuffixEmpty_append_gz f.path hnn]
    rfl
  · unfold storedName storedBytes
    rw [if_neg hc, if_neg hc, if_neg hgz]

theorem restoreDir_foldlM_map (comp : Bool) (files : List SrcFile)
    (hgz : ∀ f ∈ files, ¬pySuffix f.path = ['.', 'g', 'z']) :
    ∀ d, ((files.map (fun f => (storedName comp f, storedBytes comp f))).foldlM
        (fun d e =>
          if pySuffix e.1 = ['.', 'g', 'z'] then
            (gzipDecompress e.2).map (fun b => fsWrite d (withSuffixEmpty e.1) b)
          else some (fsWrite d e.1 e.2))
        d) =
      some (files.foldl (fun d f => fsWrite d f.path f.content) d) := by
  induction files with
  | nil => intro d; rfl
  | cons f t ih =>
    intro d
    rw [List.map_cons, List.foldlM_cons]
    rw [restore_write_step comp f d (hgz f (List.mem_cons_self _ _))]
    show ((t.map (fun f => (storedName comp f, storedBytes comp f))).foldlM _
      (fsWrite d f.path f.content)) = _
    rw [ih (fun g hg => hgz g (List.mem_cons_of_mem _ hg)) (fsWrite d f.path f.content)]
    rfl

theorem fsRead_map {α : Type} (l : List α) (key : α → PathC) (val : α → Bytes)
    (hnd : (l.map key).Nodup) (a : α) (ha : a ∈ l) :
    fsRead (l.map (fun a => (key a, val a))) (key a) = some (val a) := by
  induction l with
  | nil => cases ha
  | cons b t ih =>
    rw [List.map_cons, List.nodup_cons] at hnd
    rcases List.mem_cons.mp ha with rfl | ha'
    · unfold fsRead
      rw [List.map_cons, List.find?_cons]
      simp
    · have hne : ¬key b = key a := fun hk => hnd.1 (hk ▸ List.mem_map_of_mem key ha')
      unfold fsRead
      rw [List.map_cons, List.find?_cons, decide_eq_false hne]
      exact ih hnd.2 ha'

/-- Claim C3 counterexample: a source file `foo.gz` whose bytes happen to be
valid gzip data is stored verbatim by the (compression-enabled) full backup,
but the restore loop sees the stored `.gz` suffix, decompresses the bytes and
strips the suffix, so the restored tree contains no file at `foo.gz` — the
decompressed bytes land at `foo` instead — and the claimed round-trip equality
fails for this file. -/
theorem restore_gz_counterexample :
    restoreDir (buildBackupDir true [⟨"foo.gz".toList, [31, 139, 5], 0, true⟩]) =
      some [("foo".toList, [5])] ∧
    fsRead [("foo".toList, [5])] "foo.gz".toList = none := by
  decide

/-- Claim C3 (amended): for every file of a full backup drawn from a vault in
which no selected file's own name carries the `.gz` suffix, restoring the
backup directory to a fresh destination reproduces the file at its relative
path with exactly the original bytes: compressible files are stored
gzip-compressed under the mirrored name with `.gz` appended and are
decompressed with the suffix stripped on restore, and all other files are
copied verbatim in both directions.  (A source file whose own suffix is `.gz`
is stored verbatim but gunzipped on restore, so it is excluded.) -/
theorem backup_restore_roundtrip (comp : Bool) (files : List SrcFile)
    (hnd : (files.map (fun f => f.path)).Nodup)
    (hok : ∀ f ∈ files, f.copy_ok = true)
    (hgz : ∀ f ∈ files, ¬pySuffix f.path = ['.', 'g', 'z']) :
    ∃ d, restoreDir (buildBackupDir comp files) = some d ∧
      ∀ f ∈ files, fsRead d f.path = some f.content := by
  have hsn : (files.map (storedName comp)).Nodup := storedName_nodup comp files hnd hgz
  rw [buildBackupDir_all_ok comp files hok hsn]
  unfold restoreDir
  rw [restoreDir_foldlM_map comp files hgz []]
  refine ⟨_, rfl, ?_⟩
  intro f hf
  have h := foldl_fsWrite_eq_map files (fun f => f.path) (fun f => f.content) []
    (by intro a ha e he; cases he) hnd
  rw [List.nil_append] at h
  rw [h]
  exact fsRead_map files (fun f => f.path) (fun f => f.content) hnd f hf

/-- Witness for the amended C3: a two-file vault (one compressible, one
binary) restores byte-identically. -/
theorem backup_restore_roundtrip_witness :
    ∃ d, restoreDir (buildBackupDir true
        [⟨"a.md".toList, [1, 2], 5, true⟩, ⟨"img.png".toList, [9], 6, true⟩]) =
      some d ∧
      ∀ f ∈ [(⟨"a.md".toList, [1, 2], 5, true⟩ : SrcFile),
             ⟨"img.png".toList, [9], 6, true⟩],
        fsRead d f.path = some f.content :=
  backup_restore_roundtrip true
    [⟨"a.md".toList, [1, 2], 5, true⟩, ⟨"img.png".toList, [9], 6, true⟩]
    (by decide) (by decide) (by decide)

end SmartBackup
